import Mathlib

/-!
Verification of the Intelli-Therm pipeline (`src/intelli_therm_model.py`)
against its natural-language specification.

Numeric telemetry values are modelled as rationals (`ℚ`); a pandas `NaN`
cell is modelled as `none` in an `Option ℚ`.  Column names are modelled as
`List Char` (the textual operations on names, such as the `'_lag'` split in
`prepare_features_for_prediction`, need the character structure).  The
forecast model is an external collaborator, so a predicted load obtained
from `model.predict(...)` enters the embedding as a plain parameter.
-/

namespace IntelliTherm

/-! ### Data model -/

/-- Status label returned by the control policy.  `reduce` stands for the
source's message string "Reducing heater power by 15% due to predicted high
power demand", `maintain` for "Maintaining normal heater power". -/
inductive HeaterStatus where
  | reduce
  | maintain
deriving DecidableEq, Repr

/-- Association-list lookup of a named numeric channel in a row of vehicle
data (models `col in vehicle_data` / `vehicle_data[col]` for scalar rows). -/
def lookupQ (data : List (List Char × ℚ)) (name : List Char) : Option ℚ :=
  match data with
  | [] => none
  | (k, v) :: rest => if k = name then some v else lookupQ rest name

/-- Association-list lookup of a named column of a telemetry table
(models `col in df.columns` / `df[col]`). -/
def lookupCol (df : List (List Char × List ℚ)) (name : List Char) : Option (List ℚ) :=
  match df with
  | [] => none
  | (k, v) :: rest => if k = name then some v else lookupCol rest name

/-- Column assignment `df[name] = vals` on a telemetry table: replaces the
column when the name is already present, otherwise appends it at the end
(pandas semantics). -/
def setCol (df : List (List Char × List ℚ)) (name : List Char) (vals : List ℚ) :
    List (List Char × List ℚ) :=
  match df with
  | [] => [(name, vals)]
  | (k, v) :: rest =>
      if k = name then (name, vals) :: rest else (k, v) :: setCol rest name vals

/-- The `heater_power_W` column name. -/
def heaterName : List Char := "heater_power_W".toList

/-- The `battery_voltage_V` column name. -/
def voltageName : List Char := "battery_voltage_V".toList

/-- The `battery_current_A` column name. -/
def currentName : List Char := "battery_current_A".toList

/-- The `powertrain_load_W` column name. -/
def powertrainName : List Char := "powertrain_load_W".toList

/-! ### Control policy (source lines 930-1000) -/

/-- The decision core of `run_intelli_therm` (source lines 990-1000): given
the predicted load, the high-power threshold and the baseline heater power,
return the new heater power together with the status label.  The source
compares with a strict `>` and reduces by the fixed factor `0.85`. -/
def intelliThermDecide (predicted_load high_power_threshold base_heater_power : ℚ) :
    ℚ × HeaterStatus :=
  if high_power_threshold < predicted_load then
    (base_heater_power * (85 / 100), HeaterStatus.reduce)
  else
    (base_heater_power, HeaterStatus.maintain)

/-- `run_intelli_therm` (source lines 964-1000).  The predicted load
obtained from `model.predict(...)[0]` is passed in as `predicted_load`.
The baseline heater power is read from the `heater_power_W` channel of the
vehicle data, defaulting to `1000` W when the channel is absent (source
lines 984-988); the function returns the new heater power, the status and
the predicted load. -/
def run_intelli_therm (vehicle_data : List (List Char × ℚ))
    (predicted_load high_power_threshold : ℚ) : ℚ × HeaterStatus × ℚ :=
  let base_heater_power := (lookupQ vehicle_data heaterName).getD 1000
  let d := intelliThermDecide predicted_load high_power_threshold base_heater_power
  (d.1, d.2, predicted_load)

/-! ### Trip simulator energy accounting (source lines 1062-1093) -/

/-- One row of the simulated segment: its timestamp, its baseline
`heater_power_W` reading and the load the forecast model predicts for it
(the model itself is external, so the prediction is a free parameter). -/
structure SimRow where
  time : ℚ
  heater_power_W : ℚ
  predicted_load : ℚ
deriving DecidableEq, Repr

/-- The `time_diff` column: `df[time_col].diff().fillna(0)` (source lines
1067-1068) — the first row gets `0`, every later row the difference to the
previous timestamp. -/
def timeDiffs (times : List ℚ) : List ℚ :=
  match times with
  | [] => []
  | t :: rest => 0 :: List.zipWith (fun a b => a - b) rest (t :: rest)

/-- Heater energy total: `(power * time_diff).sum()` (source lines
1075-1084). -/
def heaterEnergyTotal (times powers : List ℚ) : ℚ :=
  (List.zipWith (· * ·) powers (timeDiffs times)).sum

/-- Per-row optimized heater power: the power component of the policy's
decision for the row, with the row's own `heater_power_W` as baseline
(source lines 1043-1059). -/
def optimizedPower (high_power_threshold : ℚ) (r : SimRow) : ℚ :=
  (intelliThermDecide r.predicted_load high_power_threshold r.heater_power_W).1

/-- Total baseline heater energy of the simulated segment (source line
1083). -/
def baselineHeaterEnergy (rows : List SimRow) : ℚ :=
  heaterEnergyTotal (rows.map SimRow.time) (rows.map SimRow.heater_power_W)

/-- Total optimized heater energy of the simulated segment (source line
1084). -/
def optimizedHeaterEnergy (high_power_threshold : ℚ) (rows : List SimRow) : ℚ :=
  heaterEnergyTotal (rows.map SimRow.time) (rows.map (optimizedPower high_power_threshold))

/-! ### Dataset partitioner (source lines 775-801) -/

/-- The trip-identifier split of `prepare_data_for_modeling` (source lines
779-801), on the list of distinct valid trip identifiers (modelled as
naturals).  With fewer than 2 trips the degenerate branch uses all trips as
both train and test; otherwise the identifiers are sorted
(`sorted(valid_trip_ids)`, modelled by insertion sort, which produces the
same ordered list) and the first `max 1 ⌊0.7·n⌋` of them become the train
set, the rest the test set.  `int(len(...) * 0.7)` truncates towards zero,
which on the exact value `0.7·n` is the floor `7*n/10`. -/
def prepareSplit (valid_trip_ids : List ℕ) : List ℕ × List ℕ :=
  if valid_trip_ids.length < 2 then (valid_trip_ids, valid_trip_ids)
  else
    let sorted_trip_ids := valid_trip_ids.insertionSort (· ≤ ·)
    let split_idx := max 1 (7 * valid_trip_ids.length / 10)
    (sorted_trip_ids.take split_idx, sorted_trip_ids.drop split_idx)

/-! ### Target builder (source lines 617-678) -/

/-- The target column `future_load_W_{h}s` of one segment, built by
`trip_df['powertrain_load_W'].shift(-horizon)` (source line 656): row `i`
receives the load `h` samples later in the same segment, `NaN` (`none`)
when no such sample exists.  Modelled as the first `min h L` positions of
the shifted tail being defined — equivalently the last `min h L` rows are
undefined. -/
def targetCol (loads : List ℚ) (h : ℕ) : List (Option ℚ) :=
  (List.range loads.length).map fun i => loads[i + h]?

/-- Row indices of a segment that survive
`result_df.dropna(subset=target_cols)` (source line 668): a row is kept
exactly when every configured horizon's target is defined for it. -/
def keptRows (loads : List ℚ) (horizons : List ℕ) : List ℕ :=
  (List.range loads.length).filter fun i =>
    horizons.all fun h => ((targetCol loads h).getD i none).isSome

/-! ### Rate-of-change features (source lines 412-505) -/

/-- Subtraction on possibly-missing cells: defined only when both are. -/
def pairSub (a b : Option ℚ) : Option ℚ :=
  match a, b with
  | some av, some bv => some (av - bv)
  | _, _ => none

/-- `Series.diff()` on a column with possibly-missing cells: the first row
is `NaN`, row `i` is `x[i] - x[i-1]` (missing when either is). -/
def diffOpt (xs : List (Option ℚ)) : List (Option ℚ) :=
  match xs with
  | [] => []
  | x :: rest => none :: List.zipWith pairSub rest (x :: rest)

/-- The guarded quotient of diffs, as in
`np.where((time_diff != 0) & (~time_diff.isna()), value_diff / time_diff, 0)`
(source lines 456-460 and 483-487): rows whose time difference is zero or
missing get exactly `0`; otherwise the quotient (missing when the value
diff is missing). -/
def rateOfChange (vals times : List (Option ℚ)) : List (Option ℚ) :=
  List.zipWith
    (fun dv dt =>
      match dt with
      | some d => if d ≠ 0 then dv.map (fun v => v / d) else some 0
      | none => some 0)
    (diffOpt vals) (diffOpt times)

/-- `acceleration_ms2` (source lines 445-460): speeds are first converted
from km/h to m/s by dividing by 3.6 = 36/10, then differenced against the
time column. -/
def acceleration_ms2 (speed_kmh times : List (Option ℚ)) : List (Option ℚ) :=
  rateOfChange (speed_kmh.map (Option.map (fun v => v / (36 / 10)))) times

/-- `throttle_change_rate` (source lines 478-487): the identical
diff-over-diff pattern applied to the throttle channel. -/
def throttle_change_rate (throttle times : List (Option ℚ)) : List (Option ℚ) :=
  rateOfChange throttle times

/-! ### 3-sigma winsorization (source lines 462-467 and 489-494) -/

/-- `Series.mean()` of a fully-populated column. -/
def sampleMean (xs : List ℚ) : ℚ := xs.sum / xs.length

/-- `Series.std() ** 2`: the pandas sample variance (`ddof = 1`), i.e. the
sum of squared deviations divided by `n - 1`. -/
def sampleVar (xs : List ℚ) : ℚ :=
  ((xs.map fun x => (x - sampleMean xs) ^ 2).sum) / ((xs.length : ℚ) - 1)

/-- The first `.loc` update: values above `mean + 3*std` are replaced by
that bound (source lines 466 and 493). -/
def clipUpper (m s : ℚ) (xs : List ℚ) : List ℚ :=
  xs.map fun x => if m + 3 * s < x then m + 3 * s else x

/-- The second `.loc` update: values below `mean - 3*std` are replaced by
that bound (source lines 467 and 494). -/
def clipLower (m s : ℚ) (xs : List ℚ) : List ℚ :=
  xs.map fun x => if x < m - 3 * s then m - 3 * s else x

/-- The whole winsorization step for one rate-of-change column of one
segment.  `s` stands for the column's standard deviation `Series.std()`
(the source's float square root of `sampleVar`; the theorems relate them by
the hypothesis `s * s = sampleVar xs`, `0 ≤ s`).  The clipping only runs
under the guard `std > 0` (source lines 463 and 490), and both bounds use
the mean and std computed on the column before any clipping. -/
def winsorize (xs : List ℚ) (s : ℚ) : List ℚ :=
  if 0 < s then clipLower (sampleMean xs) s (clipUpper (sampleMean xs) s xs) else xs

/-! ### Lag features (source lines 507-600) -/

/-- `Series.shift(k)` on a fully-populated base column of a segment
(source line 578): the first `k` rows become `NaN`, row `i ≥ k` receives
the base value at row `i - k`; the column keeps its length. -/
def laggedColumn (xs : List ℚ) (k : ℕ) : List (Option ℚ) :=
  List.replicate (min k xs.length) none ++ (xs.take (xs.length - k)).map some

/-- `DataFrame.bfill()` restricted to one column (source line 583): every
missing cell takes the value of the nearest following non-missing cell in
the same column, and stays missing when there is none. -/
def bfillCol (xs : List (Option ℚ)) : List (Option ℚ) :=
  match xs with
  | [] => []
  | x :: rest =>
      let rest' := bfillCol rest
      match x with
      | some v => some v :: rest'
      | none => rest'.headD none :: rest'

/-- One finished lag column `feature_lag{k}` of a segment: the shifted
column with its leading missing cells backward-filled (source lines
572-583). -/
def lagFeatureColumn (xs : List ℚ) (k : ℕ) : List (Option ℚ) :=
  bfillCol (laggedColumn xs k)

/-! ### Inference feature preparation (source lines 930-962) -/

/-- The characters of the `'_lag'` marker used by
`prepare_features_for_prediction`. -/
def lagMark : List Char := "_lag".toList

/-- `'_lag' in feature`: the marker occurs somewhere in the name. -/
def hasLagMark (s : List Char) : Bool :=
  match s with
  | [] => false
  | _ :: t => lagMark.isPrefixOf s || hasLagMark t

/-- `feature.split('_lag')[0]`: the characters before the first occurrence
of the marker (the whole name when the marker never occurs). -/
def baseOfLagName (s : List Char) : List Char :=
  match s with
  | [] => []
  | c :: t => if lagMark.isPrefixOf s then [] else c :: baseOfLagName t

/-- `prepare_features_for_prediction` (source lines 930-962), on a single
row of vehicle data.  For each trained feature name, in order: a present
feature is copied; an absent name containing `'_lag'` is filled with the
current value of its base feature when that base is present — and, as in
the source's `elif` without an inner `else`, is *not assigned at all* when
the base is also absent; an absent name without `'_lag'` is filled with
zero.  The result lists the assigned columns of `features_df` in
assignment order. -/
def prepare_features_for_prediction (vehicle_data : List (List Char × ℚ))
    (feature_list : List (List Char)) : List (List Char × ℚ) :=
  feature_list.filterMap fun f =>
    match lookupQ vehicle_data f with
    | some v => some (f, v)
    | none =>
        if hasLagMark f then
          (lookupQ vehicle_data (baseOfLagName f)).map fun v => (f, v)
        else
          some (f, 0)

/-! ### Powertrain load feature (source lines 355-410) -/

/-- The post-state of the caller's table after
`create_powertrain_load_feature` (source lines 355-410).  When both battery
channels are present the source assigns
`df['powertrain_load_W'] = df[voltage_col] * df[current_col]` directly into
the argument (line 381, no copy is taken), so the caller's table gains the
product column; otherwise the table is left untouched.  The returned
90th-percentile threshold and the plotting are presentation concerns not
modelled here; the substring fallback for non-canonical channel names is
not modelled either (the claims quantify over tables using the canonical
names). -/
def create_powertrain_load_feature (df : List (List Char × List ℚ)) :
    List (List Char × List ℚ) :=
  match lookupCol df voltageName, lookupCol df currentName with
  | some v, some c => setCol df powertrainName (List.zipWith (· * ·) v c)
  | _, _ => df

/-! ### Concrete tables used by counterexamples -/

/-- A 16-sample rate-of-change column: fifteen zeros and one outlier 16.
Its mean is 1 and its sample variance 16, so the 3-sigma bound is 13. -/
def clipDemoInput : List ℚ :=
  [0, 0, 0, 0, 0, 0, 0, 0, 0, 0, 0, 0, 0, 0, 0, 16]

/-- `clipDemoInput` after winsorization: the outlier is clipped to 13. -/
def clipDemoOutput : List ℚ :=
  [0, 0, 0, 0, 0, 0, 0, 0, 0, 0, 0, 0, 0, 0, 0, 13]

/-- A two-row segment whose second row has a negative heater-power reading
and a predicted load above the threshold 90. -/
def negativeHeaterRows : List SimRow :=
  [⟨0, 0, 0⟩, ⟨1, -1000, 100⟩]

/-- A telemetry table holding only the two battery channels. -/
def batteryOnlyTable : List (List Char × List ℚ) :=
  [(voltageName, [2]), (currentName, [3])]

/-! ## Theorems -/

/-- C1: the control policy reduces the baseline heater power to `0.85` of
its value with status "reduce" exactly when the predicted load strictly
exceeds the threshold, otherwise keeps the baseline with status "maintain";
the boundary is strict, so a predicted load equal to the threshold
maintains; in particular `decide(100, 90, 1000) = (850, "reduce")` and
`decide(50, 90, 1000) = (1000, "maintain")`. -/
theorem control_policy_decision :
    (∀ p t b : ℚ, t < p → intelliThermDecide p t b = (b * (85 / 100), HeaterStatus.reduce)) ∧
    (∀ p t b : ℚ, p ≤ t → intelliThermDecide p t b = (b, HeaterStatus.maintain)) ∧
    intelliThermDecide 100 90 1000 = (850, HeaterStatus.reduce) ∧
    intelliThermDecide 50 90 1000 = (1000, HeaterStatus.maintain) ∧
    (∀ t b : ℚ, intelliThermDecide t t b = (b, HeaterStatus.maintain)) := by
  refine ⟨?_, ?_, ?_, ?_, ?_⟩
  · intro p t b h
    simp [intelliThermDecide, h]
  · intro p t b h
    simp [intelliThermDecide, not_lt.mpr h]
  · norm_num [intelliThermDecide]
  · norm_num [intelliThermDecide]
  · intro t b
    simp [intelliThermDecide]

/-- Witness for C1 at the spec's concrete inputs. -/
theorem control_policy_decision_witness :
    intelliThermDecide 100 90 1000 = (850, HeaterStatus.reduce) ∧
    intelliThermDecide 50 90 1000 = (1000, HeaterStatus.maintain) := by
  refine ⟨?_, control_policy_decision.2.1 50 90 1000 (by norm_num)⟩
  have h := control_policy_decision.1 100 90 1000 (by norm_num)
  rw [h]
  norm_num

/-- C10: when the vehicle data has no `heater_power_W` channel the baseline
defaults to `1000` W, so the policy returns `850` W when the predicted load
exceeds the threshold and `1000` W otherwise; the call always produces a
result (the total function never fails for lack of the channel). -/
theorem run_intelli_therm_default_heater (data : List (List Char × ℚ)) (p t : ℚ)
    (h : lookupQ data heaterName = none) :
    run_intelli_therm data p t =
      (if t < p then (850 : ℚ) else 1000,
       if t < p then HeaterStatus.reduce else HeaterStatus.maintain, p) := by
  by_cases hpt : t < p
  · simp [run_intelli_therm, intelliThermDecide, h, hpt]
    norm_num
  · simp [run_intelli_therm, intelliThermDecide, h, hpt]

/-- Witness for C10: with empty vehicle data (no heater channel) and a
predicted load above the threshold, the policy returns `850` W. -/
theorem run_intelli_therm_default_heater_witness :
    run_intelli_therm [] 100 90 = (850, HeaterStatus.reduce, 100) := by
  have h := run_intelli_therm_default_heater [] 100 90 (by rfl)
  simpa using h

/-- C8 (code divergence): a trained lag-feature name whose base feature is
absent from the vehicle data is not substituted with zero — the source's
`elif '_lag' in feature` branch has no inner fallback, so the column is
never assigned and the prepared frame's name set fails to match the trained
feature list (the subsequent `model.predict` call then fails on the
mismatched feature set, contrary to the documented zero-substitution
default). -/
theorem prepare_features_missing_lag_base_dropped :
    prepare_features_for_prediction [] [powertrainName ++ "_lag1".toList] = [] ∧
    (prepare_features_for_prediction [] [powertrainName ++ "_lag1".toList]).map Prod.fst ≠
      [powertrainName ++ "_lag1".toList] ∧
    prepare_features_for_prediction [] [powertrainName] = [(powertrainName, 0)] := by
  refine ⟨by decide, by decide, by decide⟩

/-! ### Dataset partitioner -/

/-- Counting the indices of `range n` from `k` on. -/
theorem length_filter_range_le (n k : ℕ) :
    ((List.range n).filter fun i => k ≤ i).length = n - k := by
  induction n with
  | zero => simp
  | succ n ih =>
      rw [List.range_succ, List.filter_append, List.length_append, ih]
      by_cases h : k ≤ n
      · simp only [List.filter_cons, List.filter_nil, decide_eq_true h]
        simp
        omega
      · simp only [List.filter_cons, List.filter_nil, decide_eq_false h]
        simp
        omega

/-- C3 (amended): for at least two distinct trip identifiers the
partitioner sorts them, gives the train set the first
`max 1 ⌊0.7 · n⌋` of them (so at least one), and the train and test
identifier sets are disjoint with union the full valid set. -/
theorem partitioner_split_properties (ids : List ℕ) (hnd : ids.Nodup)
    (h2 : 2 ≤ ids.length) :
    (prepareSplit ids).1.length = max 1 (7 * ids.length / 10) ∧
    1 ≤ (prepareSplit ids).1.length ∧
    (prepareSplit ids).1.Disjoint (prepareSplit ids).2 ∧
    ∀ x, (x ∈ (prepareSplit ids).1 ∨ x ∈ (prepareSplit ids).2) ↔ x ∈ ids := by
  have hlt : ¬ ids.length < 2 := by omega
  have hperm : (ids.insertionSort (· ≤ ·)).Perm ids := List.perm_insertionSort _ _
  have hsorted_len : (ids.insertionSort (· ≤ ·)).length = ids.length :=
    List.length_insertionSort _ _
  have hnd' : (ids.insertionSort (· ≤ ·)).Nodup := hperm.nodup_iff.mpr hnd
  have hfst : (prepareSplit ids).1 =
      (ids.insertionSort (· ≤ ·)).take (max 1 (7 * ids.length / 10)) := by
    simp [prepareSplit, if_neg hlt]
  have hsnd : (prepareSplit ids).2 =
      (ids.insertionSort (· ≤ ·)).drop (max 1 (7 * ids.length / 10)) := by
    simp [prepareSplit, if_neg hlt]
  refine ⟨?_, ?_, ?_, ?_⟩
  · rw [hfst, List.length_take, hsorted_len]
    omega
  · rw [hfst, List.length_take, hsorted_len]
    omega
  · rw [hfst, hsnd]
    exact List.disjoint_take_drop hnd' le_rfl
  · intro x
    rw [hfst, hsnd, ← List.mem_append, List.take_append_drop]
    exact hperm.mem_iff

/-- Witness for C3 (amended) on the identifier list `[3, 1, 2]`. -/
theorem partitioner_split_properties_witness :
    (prepareSplit [3, 1, 2]).1.length = max 1 (7 * 3 / 10) ∧
    ∀ x, (x ∈ (prepareSplit [3, 1, 2]).1 ∨ x ∈ (prepareSplit [3, 1, 2]).2) ↔
      x ∈ [3, 1, 2] := by
  have h := partitioner_split_properties [3, 1, 2] (by decide) (by norm_num)
  exact ⟨h.1, h.2.2.2⟩

/-- C3 (counterexample): with exactly two distinct trip identifiers the
code's `max(1, int(n * 0.7))` puts a single trip in the train set, while
the claim's `⌈0.7 · n⌉` asks for two. -/
theorem partitioner_ceil_counterexample :
    prepareSplit [0, 1] = ([0], [1]) ∧
    (⌈(7 / 10 : ℚ) * 2⌉ : ℤ) = 2 ∧
    ((prepareSplit [0, 1]).1.length : ℤ) ≠ ⌈(7 / 10 : ℚ) * 2⌉ := by
  have hsplit : prepareSplit [0, 1] = ([0], [1]) := by decide
  have hceil : (⌈(7 / 10 : ℚ) * 2⌉ : ℤ) = 2 := by
    rw [Int.ceil_eq_iff]
    norm_num
  refine ⟨hsplit, hceil, ?_⟩
  rw [hsplit, hceil]
  norm_num

/-! ### Target builder -/

/-- Indexing the target column: within bounds, the target of row `i` is
the load `h` samples later (when it exists). -/
theorem targetCol_getD (loads : List ℚ) (h i : ℕ) (hi : i < loads.length) :
    (targetCol loads h).getD i none = loads[i + h]? := by
  rw [targetCol, List.getD_eq_getElem?_getD, List.getElem?_map,
    List.getElem?_range hi]
  rfl

/-- C4: per segment and horizon the target of row `i` is the load `h`
samples later in the segment; it is undefined exactly on the rows `i` with
`L ≤ i + h`, which for `h ≤ L` are exactly the last `h` rows; a row is
dropped from the combined output exactly when some configured horizon's
target is undefined for it, and every kept row has a defined target for
every configured horizon. -/
theorem target_builder_properties (loads : List ℚ) (h : ℕ) (horizons : List ℕ) :
    (∀ i, i < loads.length → (targetCol loads h).getD i none = loads[i + h]?) ∧
    (∀ i, i < loads.length →
      ((targetCol loads h).getD i none = none ↔ loads.length ≤ i + h)) ∧
    (h ≤ loads.length →
      ((List.range loads.length).filter fun i =>
        (targetCol loads h).getD i none = none).length = h) ∧
    (∀ i ∈ keptRows loads horizons, ∀ hz ∈ horizons,
      ((targetCol loads hz).getD i none).isSome) ∧
    (∀ i, i < loads.length →
      (i ∉ keptRows loads horizons ↔
        ∃ hz ∈ horizons, (targetCol loads hz).getD i none = none)) := by
  have hchar : ∀ i, i < loads.length →
      ((targetCol loads h).getD i none = none ↔ loads.length ≤ i + h) := by
    intro i hi
    rw [targetCol_getD loads h i hi]
    exact List.getElem?_eq_none_iff
  refine ⟨fun i hi => targetCol_getD loads h i hi, hchar, ?_, ?_, ?_⟩
  · intro hhL
    have hcongr : ((List.range loads.length).filter fun i =>
        (targetCol loads h).getD i none = none) =
        ((List.range loads.length).filter fun i => loads.length - h ≤ i) := by
      apply List.filter_congr
      intro i hi
      have hi' : i < loads.length := List.mem_range.mp hi
      simp only [decide_eq_decide]
      rw [hchar i hi']
      omega
    rw [hcongr, length_filter_range_le]
    omega
  · intro i hmem hz hhz
    simp only [keptRows] at hmem
    have := (List.mem_filter.mp hmem).2
    exact List.all_eq_true.mp this hz hhz
  · intro i hi
    constructor
    · intro hnot
      by_contra hall
      push_neg at hall
      apply hnot
      rw [keptRows, List.mem_filter]
      refine ⟨List.mem_range.mpr hi, List.all_eq_true.mpr ?_⟩
      intro hz hhz
      have := hall hz hhz
      simpa [Option.isSome_iff_ne_none] using this
    · intro ⟨hz, hhz, hnone⟩ hmem
      simp only [keptRows] at hmem
      have := List.all_eq_true.mp (List.mem_filter.mp hmem).2 hz hhz
      rw [hnone] at this
      simp at this

/-- Witness for C4 on the segment `[1, 2, 3, 4]` with horizon 2: the
target of row 0 is the load of row 2, and exactly the last 2 rows lack a
target. -/
theorem target_builder_properties_witness :
    (targetCol [1, 2, 3, 4] 2).getD 0 none = [(1 : ℚ), 2, 3, 4][0 + 2]? ∧
    ((List.range 4).filter fun i =>
      (targetCol [(1 : ℚ), 2, 3, 4] 2).getD i none = none).length = 2 := by
  have h := target_builder_properties [(1 : ℚ), 2, 3, 4] 2 [2]
  exact ⟨h.1 0 (by norm_num), h.2.2.1 (by norm_num)⟩

/-! ### Rate-of-change zero-guard -/

/-- `diff` keeps the column length. -/
theorem diffOpt_length (xs : List (Option ℚ)) : (diffOpt xs).length = xs.length := by
  cases xs with
  | nil => rfl
  | cons x rest =>
      simp only [diffOpt, List.length_cons, List.length_zipWith]
      omega

/-- Generic zero-guard: a row whose time difference is missing or zero gets
a rate of change of exactly zero, whatever the value diffs are. -/
theorem rateOfChange_zero_at (vals times : List (Option ℚ)) (i : ℕ)
    (hlen : vals.length = times.length) (hi : i < times.length)
    (hdt : (diffOpt times).getD i none = none ∨ (diffOpt times).getD i none = some 0) :
    (rateOfChange vals times).getD i none = some 0 := by
  have hidt : i < (diffOpt times).length := by rw [diffOpt_length]; exact hi
  have hl : i < (rateOfChange vals times).length := by
    simp only [rateOfChange, List.length_zipWith, diffOpt_length, hlen]
    omega
  rw [List.getD_eq_getElem _ _ hl]
  rw [List.getD_eq_getElem _ _ hidt] at hdt
  simp only [rateOfChange, List.getElem_zipWith]
  rcases hdt with hdt | hdt
  · rw [hdt]
  · rw [hdt]
    simp

/-- C6: for every row whose time difference to the previous row is zero or
missing (the segment's first row included), both `acceleration_ms2` and
`throttle_change_rate` come out exactly zero — the division is skipped and
no missing value is produced for these features. -/
theorem rate_features_zero_dt (speed throttle times : List (Option ℚ)) (i : ℕ)
    (hs : speed.length = times.length) (ht : throttle.length = times.length)
    (hi : i < times.length)
    (hdt : (diffOpt times).getD i none = none ∨ (diffOpt times).getD i none = some 0) :
    (acceleration_ms2 speed times).getD i none = some 0 ∧
    (throttle_change_rate throttle times).getD i none = some 0 := by
  constructor
  · exact rateOfChange_zero_at _ _ i (by simpa using hs) hi hdt
  · exact rateOfChange_zero_at _ _ i ht hi hdt

/-- Witness for C6: a two-row segment with equal timestamps — row 1 has
`Δt = 0` and both features evaluate to exactly zero there. -/
theorem rate_features_zero_dt_witness :
    (acceleration_ms2 [some 10, some 20] [some 5, some 5]).getD 1 none = some 0 ∧
    (throttle_change_rate [some 1, some 2] [some 5, some 5]).getD 1 none = some 0 := by
  refine rate_features_zero_dt [some 10, some 20] [some 1, some 2]
    [some 5, some 5] 1 (by norm_num) (by norm_num) (by norm_num) (Or.inr ?_)
  norm_num [diffOpt, pairSub, List.getD]

/-! ### 3-sigma winsorization -/

/-- A list of nonnegative rationals summing to zero is all zeros. -/
theorem list_sum_eq_zero_all_zero {l : List ℚ} (h0 : ∀ x ∈ l, 0 ≤ x)
    (hsum : l.sum = 0) : ∀ x ∈ l, x = 0 := by
  induction l with
  | nil => simp
  | cons a t ih =>
      rw [List.sum_cons] at hsum
      have ha : 0 ≤ a := h0 a (List.mem_cons_self a t)
      have ht : 0 ≤ t.sum := List.sum_nonneg fun x hx => h0 x (List.mem_cons_of_mem _ hx)
      have ha0 : a = 0 := by linarith
      have hts : t.sum = 0 := by linarith
      intro x hx
      rcases List.mem_cons.mp hx with hx | hx
      · rw [hx, ha0]
      · exact ih (fun y hy => h0 y (List.mem_cons_of_mem _ hy)) hts x hx

/-- C5 (amended): after the winsorization step, every value of the
rate-of-change column lies within `mean ± 3·std` where the mean and the
std are the ones computed on the column *before* clipping (the numbers the
source clips with); `s` is related to the embedded variance by
`s * s = sampleVar xs`, `0 ≤ s`. -/
theorem winsorize_within_preclip_bounds (xs : List ℚ) (s : ℚ)
    (hs : 0 ≤ s) (hv : s * s = sampleVar xs) :
    ∀ y ∈ winsorize xs s,
      sampleMean xs - 3 * s ≤ y ∧ y ≤ sampleMean xs + 3 * s := by
  intro y hy
  by_cases hpos : 0 < s
  · rw [winsorize, if_pos hpos] at hy
    simp only [clipLower, clipUpper, List.map_map, List.mem_map, Function.comp] at hy
    obtain ⟨x, _, rfl⟩ := hy
    constructor
    · split_ifs <;> linarith
    · split_ifs <;> linarith
  · have hs0 : s = 0 := le_antisymm (not_lt.mp hpos) hs
    subst hs0
    rw [winsorize, if_neg hpos] at hy
    have hvar : sampleVar xs = 0 := by rw [← hv]; ring
    have hym : y = sampleMean xs := by
      rcases xs with _ | ⟨a, _ | ⟨b, rest⟩⟩
      · simp at hy
      · have hya : y = a := by simpa using hy
        rw [hya]
        simp [sampleMean]
      · set m := sampleMean (a :: b :: rest) with hm
        have hden : ((a :: b :: rest).length : ℚ) - 1 ≠ 0 := by
          simp only [List.length_cons]
          push_cast
          have hnn : (0 : ℚ) ≤ (rest.length : ℚ) := by positivity
          intro hcontra
          linarith
        have hS : (((a :: b :: rest).map fun x => (x - m) ^ 2).sum) = 0 := by
          rw [sampleVar] at hvar
          rcases div_eq_zero_iff.mp hvar with h | h
          · exact h
          · exact absurd h hden
        have hall := list_sum_eq_zero_all_zero
          (l := ((a :: b :: rest).map fun x => (x - m) ^ 2))
          (fun x hx => by
            obtain ⟨z, _, rfl⟩ := List.mem_map.mp hx
            positivity) hS
        have hy2 : (y - m) ^ 2 = 0 :=
          hall _ (List.mem_map.mpr ⟨y, hy, rfl⟩)
        have := pow_eq_zero_iff (n := 2) (by norm_num) |>.mp hy2
        linarith [sub_eq_zero.mp this]
    rw [hym]
    constructor <;> simp

/-- Witness for C5 (amended) on `clipDemoInput` with `s = 4`: the clipped
outlier 13 lies within `1 ± 12`. -/
theorem winsorize_within_preclip_bounds_witness :
    (0 : ℚ) ≤ 4 ∧ (4 : ℚ) * 4 = sampleVar clipDemoInput ∧
    ((13 : ℚ) ∈ winsorize clipDemoInput 4 →
      sampleMean clipDemoInput - 3 * 4 ≤ 13 ∧
      (13 : ℚ) ≤ sampleMean clipDemoInput + 3 * 4) := by
  have hmean : sampleMean clipDemoInput = 1 := by
    simp [sampleMean, clipDemoInput]
  have hvar : sampleVar clipDemoInput = 16 := by
    rw [sampleVar, hmean]
    simp only [clipDemoInput, List.map_cons, List.map_nil, List.sum_cons,
      List.sum_nil, List.length_cons, List.length_nil]
    norm_num
  refine ⟨by norm_num, by rw [hvar]; norm_num, ?_⟩
  intro hmem
  exact winsorize_within_preclip_bounds clipDemoInput 4 (by norm_num)
    (by rw [hvar]; norm_num) 13 hmem

/-- C5 (counterexample): on the sixteen-sample column `clipDemoInput`
(mean 1, sample std 4) the source clips the outlier 16 to the pre-clip
bound 13; recomputing mean and std on the clipped result gives
`13/16 + 3·(13/4) = 169/16 < 13`, so the clipped value *exceeds*
`mean + 3·std` recomputed on the clipped result — the claim's recomputed
bound does not hold. -/
theorem winsorize_recomputed_bound_counterexample :
    (0 : ℚ) < 4 ∧ (4 : ℚ) * 4 = sampleVar clipDemoInput ∧
    winsorize clipDemoInput 4 = clipDemoOutput ∧
    (0 : ℚ) ≤ 13 / 4 ∧ (13 / 4 : ℚ) * (13 / 4) = sampleVar clipDemoOutput ∧
    (13 : ℚ) ∈ clipDemoOutput ∧
    sampleMean clipDemoOutput + 3 * (13 / 4) < 13 := by
  have hmean : sampleMean clipDemoInput = 1 := by
    simp [sampleMean, clipDemoInput]
  have hvar : sampleVar clipDemoInput = 16 := by
    rw [sampleVar, hmean]
    simp only [clipDemoInput, List.map_cons, List.map_nil, List.sum_cons,
      List.sum_nil, List.length_cons, List.length_nil]
    norm_num
  have hmean' : sampleMean clipDemoOutput = 13 / 16 := by
    simp [sampleMean, clipDemoOutput]
  have hvar' : sampleVar clipDemoOutput = 169 / 16 := by
    rw [sampleVar, hmean']
    simp only [clipDemoOutput, List.map_cons, List.map_nil, List.sum_cons,
      List.sum_nil, List.length_cons, List.length_nil]
    norm_num
  refine ⟨by norm_num, by rw [hvar]; norm_num, ?_, by norm_num,
    by rw [hvar']; norm_num, by simp [clipDemoOutput], by rw [hmean']; norm_num⟩
  rw [winsorize, if_pos (by norm_num : (0 : ℚ) < 4), hmean]
  simp only [clipUpper, clipLower, clipDemoInput, clipDemoOutput, List.map_cons,
    List.map_nil]
  norm_num

/-! ### Lag features -/

/-- Backward fill leaves a column with no missing cells unchanged. -/
theorem bfillCol_map_some (l : List ℚ) : bfillCol (l.map some) = l.map some := by
  induction l with
  | nil => rfl
  | cons a t ih => simp [bfillCol, ih]

/-- Backward fill propagates the first defined cell over the leading
missing block. -/
theorem bfillCol_replicate_append (k : ℕ) (v : ℚ) (l : List (Option ℚ)) :
    bfillCol (List.replicate k none ++ some v :: l) =
      List.replicate k (some v) ++ bfillCol (some v :: l) := by
  induction k with
  | zero => simp
  | succ k ih =>
      rw [List.replicate_succ, List.cons_append]
      rw [show bfillCol (none :: (List.replicate k none ++ some v :: l)) =
          (bfillCol (List.replicate k none ++ some v :: l)).headD none ::
            bfillCol (List.replicate k none ++ some v :: l) from rfl]
      rw [ih]
      have hhead : (List.replicate k (some v) ++ bfillCol (some v :: l)).headD none =
          some v := by
        cases k with
        | zero => simp [bfillCol]
        | succ k => simp [List.replicate_succ]
      rw [hhead, List.replicate_succ, List.cons_append]

/-- Normal form of a finished lag column when the lag is shorter than the
segment: `k` copies of the segment's first base value followed by the base
column truncated to the remaining length. -/
theorem lagFeatureColumn_eq (xs : List ℚ) (k : ℕ) (hk : k < xs.length) :
    lagFeatureColumn xs k =
      List.replicate k (some (xs.headD 0)) ++ (xs.take (xs.length - k)).map some := by
  rcases xs with _ | ⟨a, t⟩
  · simp at hk
  · have hmin : min k (a :: t).length = k := Nat.min_eq_left (Nat.le_of_lt hk)
    have hlen : (a :: t).length - k = (t.length - k) + 1 := by
      simp only [List.length_cons] at hk ⊢
      omega
    rw [lagFeatureColumn, laggedColumn, hmin, hlen]
    rw [show (a :: t).take ((t.length - k) + 1) = a :: t.take (t.length - k) from rfl]
    rw [List.map_cons, bfillCol_replicate_append]
    rw [show (some a :: (t.take (t.length - k)).map some) =
        (a :: t.take (t.length - k)).map some from rfl]
    rw [bfillCol_map_some]
    rfl

/-- C7 (amended): for a base column and a lag `k` shorter than the segment,
the lag column at row `i ≥ k` holds the base value of row `i - k`; the
first `k` rows are backward-filled with the nearest later value — the base
value of row 0 — and after construction no missing cell remains in the lag
column. -/
theorem lag_feature_properties (xs : List ℚ) (k : ℕ) (hk : k < xs.length) :
    (∀ i, k ≤ i → i < xs.length →
      (lagFeatureColumn xs k).getD i none = xs[i - k]?) ∧
    (∀ i, i < k → (lagFeatureColumn xs k).getD i none = xs[0]?) ∧
    (∀ i, i < xs.length → ((lagFeatureColumn xs k).getD i none).isSome) := by
  have hnf := lagFeatureColumn_eq xs k hk
  have hhead : xs[0]? = some (xs.headD 0) := by
    rcases xs with _ | ⟨a, t⟩
    · simp at hk
    · simp
  have hlow : ∀ i, i < k → (lagFeatureColumn xs k).getD i none = xs[0]? := by
    intro i hik
    rw [hnf, List.getD_eq_getElem?_getD, List.getElem?_append, hhead]
    have : i < (List.replicate k (some (xs.headD 0))).length := by
      simp [hik]
    rw [if_pos this, List.getElem?_replicate, if_pos hik]
    rfl
  have hhigh : ∀ i, k ≤ i → i < xs.length →
      (lagFeatureColumn xs k).getD i none = xs[i - k]? := by
    intro i hki hi
    rw [hnf, List.getD_eq_getElem?_getD]
    rw [List.getElem?_append_right (by simp [hki])]
    simp only [List.length_replicate]
    rw [List.getElem?_map, List.getElem?_take, if_pos (by omega)]
    have hik : i - k < xs.length := by omega
    rw [List.getElem?_eq_getElem hik]
    rfl
  refine ⟨hhigh, hlow, ?_⟩
  intro i hi
  rcases Nat.lt_or_ge i k with hik | hik
  · rw [hlow i hik, hhead]
    rfl
  · rw [hhigh i hik hi]
    have hik' : i - k < xs.length := by omega
    rw [List.getElem?_eq_getElem hik']
    rfl

/-- Witness for C7 (amended) on the segment `[4, 5, 6]` with lag 2. -/
theorem lag_feature_properties_witness :
    (lagFeatureColumn [(4 : ℚ), 5, 6] 2).getD 2 none = [(4 : ℚ), 5, 6][2 - 2]? ∧
    (lagFeatureColumn [(4 : ℚ), 5, 6] 2).getD 0 none = [(4 : ℚ), 5, 6][0]? ∧
    ((lagFeatureColumn [(4 : ℚ), 5, 6] 2).getD 1 none).isSome := by
  have h := lag_feature_properties [(4 : ℚ), 5, 6] 2 (by norm_num)
  exact ⟨h.1 2 (by norm_num) (by norm_num), h.2.1 0 (by norm_num),
    h.2.2 1 (by norm_num)⟩

/-- C7 (counterexample): a three-sample segment with the configured lag 5
produces an all-missing shifted column, and backward fill — having no later
value to copy — leaves every cell missing, so the segment is not fully
populated after lag construction. -/
theorem lag_feature_nulls_counterexample :
    lagFeatureColumn [(1 : ℚ), 2, 3] 5 = [none, none, none] ∧
    ¬ ((lagFeatureColumn [(1 : ℚ), 2, 3] 5).getD 0 none).isSome = true := by
  constructor
  · decide
  · decide

/-! ### Trip simulator energy accounting -/

/-- The policy's power never exceeds a nonnegative baseline. -/
theorem optimizedPower_le (thr : ℚ) (r : SimRow) (hb : 0 ≤ r.heater_power_W) :
    optimizedPower thr r ≤ r.heater_power_W := by
  rw [optimizedPower, intelliThermDecide]
  split_ifs
  · calc r.heater_power_W * (85 / 100) ≤ r.heater_power_W * 1 :=
        mul_le_mul_of_nonneg_left (by norm_num) hb
      _ = r.heater_power_W := mul_one _
  · exact le_rfl

/-- Tail comparison for the energy sums, threading the previous timestamp. -/
theorem energy_tail_le (thr : ℚ) (rows : List SimRow) :
    ∀ prev : ℚ, List.Chain (· ≤ ·) prev (rows.map SimRow.time) →
    (∀ r ∈ rows, 0 ≤ r.heater_power_W) →
    (List.zipWith (· * ·) (rows.map (optimizedPower thr))
      (List.zipWith (fun a b => a - b) (rows.map SimRow.time)
        (prev :: rows.map SimRow.time))).sum ≤
    (List.zipWith (· * ·) (rows.map SimRow.heater_power_W)
      (List.zipWith (fun a b => a - b) (rows.map SimRow.time)
        (prev :: rows.map SimRow.time))).sum := by
  induction rows with
  | nil => intro prev _ _; simp
  | cons r rest ih =>
      intro prev hchain hpos
      simp only [List.map_cons, List.zipWith_cons_cons, List.sum_cons]
      have hparts := List.chain_cons.mp hchain
      have hb : 0 ≤ r.heater_power_W := hpos r (List.mem_cons_self r rest)
      have hterm : optimizedPower thr r * (r.time - prev) ≤
          r.heater_power_W * (r.time - prev) :=
        mul_le_mul_of_nonneg_right (optimizedPower_le thr r hb)
          (by linarith [hparts.1])
      have htail := ih r.time hparts.2
        (fun x hx => hpos x (List.mem_cons_of_mem _ hx))
      linarith

/-- C2 (amended): on a simulated segment with non-decreasing timestamps and
nonnegative baseline heater-power readings, the optimized heater energy
total never exceeds the baseline total, whatever loads the model predicts —
each row's optimized power is the baseline or 0.85 times it. -/
theorem simulator_energy_no_increase (thr : ℚ) (rows : List SimRow)
    (hchain : List.Chain' (· ≤ ·) (rows.map SimRow.time))
    (hpos : ∀ r ∈ rows, 0 ≤ r.heater_power_W) :
    optimizedHeaterEnergy thr rows ≤ baselineHeaterEnergy rows := by
  cases rows with
  | nil => simp [optimizedHeaterEnergy, baselineHeaterEnergy, heaterEnergyTotal, timeDiffs]
  | cons r rest =>
      simp only [optimizedHeaterEnergy, baselineHeaterEnergy, heaterEnergyTotal,
        timeDiffs, List.map_cons, List.zipWith_cons_cons, List.sum_cons, mul_zero]
      have hchain2 : List.Chain (· ≤ ·) r.time (rest.map SimRow.time) := by
        simpa [List.map_cons] using hchain
      have := energy_tail_le thr rest r.time hchain2
        (fun x hx => hpos x (List.mem_cons_of_mem _ hx))
      linarith

/-- Witness for C2 (amended): a two-row segment at times 0 and 1 with
baseline 2000 W and a predicted load above the threshold on both rows
yields `1700 ≤ 2000` for the energies. -/
theorem simulator_energy_no_increase_witness :
    optimizedHeaterEnergy 90 [⟨0, 2000, 100⟩, ⟨1, 2000, 100⟩] ≤
      baselineHeaterEnergy [⟨0, 2000, 100⟩, ⟨1, 2000, 100⟩] := by
  refine simulator_energy_no_increase 90 [⟨0, 2000, 100⟩, ⟨1, 2000, 100⟩] ?_ ?_
  · simp only [List.map_cons, List.map_nil, List.chain'_cons, List.chain'_singleton,
      and_true]
    norm_num
  · intro r hr
    rcases List.mem_cons.mp hr with h | h
    · rw [h]; norm_num
    · rcases List.mem_cons.mp h with h | h
      · rw [h]; norm_num
      · simp at h

/-- C2 (counterexample): on `negativeHeaterRows` — a segment with
non-decreasing timestamps whose second row carries a *negative*
`heater_power_W` reading of -1000 and a predicted load above the
threshold — the policy's 15% reduction moves the power from -1000 to -850,
so the optimized energy total (-850 J) exceeds the baseline total
(-1000 J): the claim fails without a nonnegativity assumption on the
heater readings. -/
theorem simulator_energy_counterexample :
    List.Chain' (· ≤ ·) (negativeHeaterRows.map SimRow.time) ∧
    baselineHeaterEnergy negativeHeaterRows <
      optimizedHeaterEnergy 90 negativeHeaterRows := by
  constructor
  · simp only [negativeHeaterRows, List.map_cons, List.map_nil, List.chain'_cons,
      List.chain'_singleton, and_true]
    norm_num
  · simp only [negativeHeaterRows, baselineHeaterEnergy, optimizedHeaterEnergy,
      heaterEnergyTotal, timeDiffs, optimizedPower, intelliThermDecide,
      List.map_cons, List.map_nil, List.zipWith_cons_cons, List.zipWith_nil_right,
      List.sum_cons, List.sum_nil]
    norm_num

/-! ### Powertrain load feature mutation -/

/-- Assigning an absent column appends it at the end of the table. -/
theorem setCol_absent (df : List (List Char × List ℚ)) (name : List Char)
    (vals : List ℚ) (h : lookupCol df name = none) :
    setCol df name vals = df ++ [(name, vals)] := by
  induction df with
  | nil => rfl
  | cons p rest ih =>
      obtain ⟨k, v⟩ := p
      rw [lookupCol] at h
      by_cases hk : k = name
      · rw [if_pos hk] at h
        exact absurd h (by simp)
      · rw [if_neg hk] at h
        rw [setCol, if_neg hk, ih h]
        rfl

/-- Appending a fresh column does not change lookups of other names. -/
theorem lookupCol_append_single_ne (df : List (List Char × List ℚ))
    (name name' : List Char) (vals : List ℚ) (h : name ≠ name') :
    lookupCol (df ++ [(name, vals)]) name' = lookupCol df name' := by
  induction df with
  | nil => simp [lookupCol, if_neg h]
  | cons p rest ih =>
      obtain ⟨k, v⟩ := p
      rw [List.cons_append, lookupCol, lookupCol]
      by_cases hk : k = name'
      · rw [if_pos hk, if_pos hk]
      · rw [if_neg hk, if_neg hk, ih]

/-- Appending a previously-absent column makes it found. -/
theorem lookupCol_append_single (df : List (List Char × List ℚ))
    (name : List Char) (vals : List ℚ) (h : lookupCol df name = none) :
    lookupCol (df ++ [(name, vals)]) name = some vals := by
  induction df with
  | nil => simp [lookupCol]
  | cons p rest ih =>
      obtain ⟨k, v⟩ := p
      rw [lookupCol] at h
      by_cases hk : k = name
      · rw [if_pos hk] at h
        exact absurd h (by simp)
      · rw [if_neg hk] at h
        rw [List.cons_append, lookupCol, if_neg hk, ih h]

/-- C9 (amended): on a table with both battery channels and no
`powertrain_load_W` column yet, `create_powertrain_load_feature` writes the
elementwise product column into the caller's table in place — the
post-state is the source table with `powertrain_load_W` appended, all
pre-existing columns unchanged — so the source table is *not* left
unchanged. -/
theorem powertrain_load_mutates_in_place (df : List (List Char × List ℚ))
    (v c : List ℚ)
    (hv : lookupCol df voltageName = some v) (hc : lookupCol df currentName = some c)
    (hp : lookupCol df powertrainName = none) :
    create_powertrain_load_feature df =
      df ++ [(powertrainName, List.zipWith (· * ·) v c)] ∧
    create_powertrain_load_feature df ≠ df ∧
    (∀ name, powertrainName ≠ name →
      lookupCol (create_powertrain_load_feature df) name = lookupCol df name) ∧
    lookupCol (create_powertrain_load_feature df) powertrainName =
      some (List.zipWith (· * ·) v c) := by
  have heq : create_powertrain_load_feature df =
      df ++ [(powertrainName, List.zipWith (· * ·) v c)] := by
    rw [create_powertrain_load_feature, hv, hc]
    exact setCol_absent df powertrainName _ hp
  refine ⟨heq, ?_, ?_, ?_⟩
  · rw [heq]
    intro hcontra
    have := congrArg List.length hcontra
    simp at this
  · intro name hne
    rw [heq]
    exact lookupCol_append_single_ne df powertrainName name _ hne
  · rw [heq]
    exact lookupCol_append_single df powertrainName _ hp

/-- Witness for C9 (amended) on `batteryOnlyTable`. -/
theorem powertrain_load_mutates_in_place_witness :
    create_powertrain_load_feature batteryOnlyTable =
      batteryOnlyTable ++ [(powertrainName, List.zipWith (· * ·) [2] [3])] ∧
    create_powertrain_load_feature batteryOnlyTable ≠ batteryOnlyTable := by
  have h := powertrain_load_mutates_in_place batteryOnlyTable [2] [3]
    (by decide) (by decide) (by decide)
  exact ⟨h.1, h.2.1⟩

/-- C9 (counterexample): on the concrete table holding only the two battery
channels, the instantaneous-load computation does not leave the source
table unchanged — the call's post-state has three columns, the input two. -/
theorem powertrain_load_mutation_counterexample :
    create_powertrain_load_feature batteryOnlyTable ≠ batteryOnlyTable ∧
    (create_powertrain_load_feature batteryOnlyTable).length = 3 ∧
    batteryOnlyTable.length = 2 := by
  have hlen : (create_powertrain_load_feature batteryOnlyTable).length = 3 := by
    decide
  refine ⟨?_, hlen, by decide⟩
  intro hcontra
  have := congrArg List.length hcontra
  rw [hlen] at this
  simp [batteryOnlyTable] at this

end IntelliTherm
